import Mathlib

set_option maxHeartbeats 1000000
set_option linter.unreachableTactic false
set_option linter.unusedTactic false

/- Verification of the Reddit-Out-Loud browser extension: the content script
   (src/content/content.ts), the standalone playback engine
   (src/playback/playback.ts) and their pure helpers, checked against the
   natural-language specification.

   Strings are modelled as lists of characters (`String.data`).  JavaScript's
   `toLowerCase` is modelled by `Char.toLower` (they agree on ASCII, which is
   all the denylist and the claims exercise). -/

/-- The built-in bot/moderator author denylist (content.ts `FILTERED_AUTHORS`). -/
def FILTERED_AUTHORS : List (List Char) :=
  ["automoderator".data, "automod".data, "moderator".data, "bot".data,
   "modbot".data, "reddit".data]

/-- Substring containment on character lists, modelling JS `String.includes`:
    true iff `needle` occurs (contiguously) anywhere in the list. -/
def listContainsSub (needle : List Char) : List Char → Bool
  | [] => needle.isPrefixOf ([] : List Char)
  | c :: rest => needle.isPrefixOf (c :: rest) || listContainsSub needle rest

/-- content.ts `shouldFilterAuthor` (lines 45-67).  The author is `null` or a
    string; the JS guard `if (!author) return false` also rejects the empty
    string, hence the extra `a = []` test. -/
def shouldFilterAuthor (author : Option (List Char)) : Bool :=
  match author with
  | none => false
  | some a =>
    if a = [] then false
    else
      if FILTERED_AUTHORS.contains (a.map Char.toLower) then true
      else if listContainsSub "bot".data (a.map Char.toLower) then true
      else if "bot".data.isSuffixOf (a.map Char.toLower)
              || "_bot".data.isSuffixOf (a.map Char.toLower) then true
      else if "mod".data.isPrefixOf (a.map Char.toLower) then true
      else false

/-- The author-filter predicate exactly as the specification words it (§4.4):
    true when the lowercased name is in the denylist, or contains the substring
    "bot", or ends with "bot"/"_bot", or starts with "mod". -/
def specFilteredAuthor (a : List Char) : Bool :=
  FILTERED_AUTHORS.contains (a.map Char.toLower)
    || listContainsSub "bot".data (a.map Char.toLower)
    || "bot".data.isSuffixOf (a.map Char.toLower)
    || "_bot".data.isSuffixOf (a.map Char.toLower)
    || "mod".data.isPrefixOf (a.map Char.toLower)

/-- content.ts `getVoiceForIndex` (lines 335-342): the voice pool restricted to
    the user's selected voice names, falling back to the full pool when the
    selection is empty or matches nothing. -/
def restrictedPool (filteredVoices selectedVoiceNames : List (List Char)) :
    List (List Char) :=
  if selectedVoiceNames ≠ [] then
    if filteredVoices.filter (fun v => selectedVoiceNames.contains v) = [] then
      filteredVoices
    else
      filteredVoices.filter (fun v => selectedVoiceNames.contains v)
  else filteredVoices

/-- The restriction as the specification words it (§4.5): "restrict to
    `allowlist` if non-empty and the restriction is non-empty, else use the
    full `pool`". -/
def specRestrictedPool (pool allowlist : List (List Char)) : List (List Char) :=
  if pool.filter (fun v => allowlist.contains v) ≠ [] then
    pool.filter (fun v => allowlist.contains v)
  else pool

/-- content.ts `getVoiceForIndex` (lines 326-346). -/
def getVoiceForIndex (index : Nat) (filteredVoices : List (List Char))
    (useUniqueVoices : Bool) (selectedVoiceNames : List (List Char)) :
    Option (List Char) :=
  if filteredVoices = [] then none
  else if !useUniqueVoices then some (filteredVoices.getD 0 [])
  else
    some ((restrictedPool filteredVoices selectedVoiceNames).getD
      (index % (restrictedPool filteredVoices selectedVoiceNames).length) [])

/-- Concrete three-voice pool used in the specification's round-robin example. -/
def vpool3 : List (List Char) := ["v0".data, "v1".data, "v2".data]

/-- The ASCII portion of JS regex `\s` whitespace. -/
def isJsWs (c : Char) : Bool :=
  c = ' ' || c = '\t' || c = '\n' || c = '\r' || c = '\x0b' || c = '\x0c'

/-- JS regex `\w` word characters. -/
def isWordChar (c : Char) : Bool := c.isAlpha || c.isDigit || c = '_'

/-- Matcher for the regex `\[([^\]]+)\]\([^\)]+\)` at the head of the list:
    on success returns the captured label (`$1`) and the remainder after the
    match. -/
def matchMd (l : List Char) : Option (List Char × List Char) :=
  match l with
  | '[' :: t =>
    match t.dropWhile (fun c => c ≠ ']') with
    | ']' :: '(' :: u =>
      match u.dropWhile (fun c => c ≠ ')') with
      | ')' :: v =>
        if t.takeWhile (fun c => c ≠ ']') ≠ [] ∧ u.takeWhile (fun c => c ≠ ')') ≠ [] then
          some (t.takeWhile (fun c => c ≠ ']'), v)
        else none
      | _ => none
    | _ => none
  | _ => none

/-- Matcher for the regex `https?:\/\/[^\s]+` at the head of the list: on
    success returns the remainder after the match (the replacement is empty). -/
def matchHttpUrl (l : List Char) : Option (List Char) :=
  match l with
  | 'h' :: 't' :: 't' :: 'p' :: rest =>
    match
      (match rest with
       | 's' :: ':' :: '/' :: '/' :: r => some r
       | ':' :: '/' :: '/' :: r => some r
       | _ => none) with
    | some r =>
      if r.takeWhile (fun c => !isJsWs c) ≠ [] then
        some (r.dropWhile (fun c => !isJsWs c))
      else none
    | none => none
  | _ => none

/-- Matcher for the regex `www\.[^\s]+` at the head of the list. -/
def matchWww (l : List Char) : Option (List Char) :=
  match l with
  | 'w' :: 'w' :: 'w' :: '.' :: r =>
    if r.takeWhile (fun c => !isJsWs c) ≠ [] then
      some (r.dropWhile (fun c => !isJsWs c))
    else none
  | _ => none

/-- Left-to-right scan-and-replace driver for a regex with the `g` flag: at
    each position try `step`; on a match emit the replacement and continue
    after the match, otherwise emit the character and advance by one.  Every
    successful `step` used below consumes at least one character, so fuel equal
    to the input length is never exhausted. -/
def scanReplaceAux (step : List Char → Option (List Char × List Char)) :
    Nat → List Char → List Char
  | 0, l => l
  | _ + 1, [] => []
  | fuel + 1, c :: rest =>
    match step (c :: rest) with
    | some (rep, a) => rep ++ scanReplaceAux step fuel a
    | none => c :: scanReplaceAux step fuel rest

def scanReplace (step : List Char → Option (List Char × List Char))
    (l : List Char) : List Char :=
  scanReplaceAux step l.length l

/-- Scanner for the regex `\b<tag>\/\w+` with the `g` flag (`tag` is `r` or
    `u`): `prevWord` records whether the previously scanned character was a
    word character, so `\b` holds before `tag` exactly when `prevWord` is
    false; after a match the last consumed character is a word character. -/
def removeTagAux (tag : Char) : Nat → Bool → List Char → List Char
  | 0, _, l => l
  | _ + 1, _, [] => []
  | fuel + 1, prevWord, c :: rest =>
    if c = tag && !prevWord then
      match rest with
      | '/' :: r =>
        if r.takeWhile isWordChar ≠ [] then
          removeTagAux tag fuel true (r.dropWhile isWordChar)
        else c :: removeTagAux tag fuel (isWordChar c) rest
      | _ => c :: removeTagAux tag fuel (isWordChar c) rest
    else c :: removeTagAux tag fuel (isWordChar c) rest

def removeTagMentions (tag : Char) (l : List Char) : List Char :=
  removeTagAux tag l.length false l

/-- `text.replace(/\s+/g, ' ')`: collapse every whitespace run to a single
    space; the flag records whether we are inside a run already replaced. -/
def collapseWsAux : Bool → List Char → List Char
  | _, [] => []
  | true, c :: rest =>
    if isJsWs c then collapseWsAux true rest else c :: collapseWsAux false rest
  | false, c :: rest =>
    if isJsWs c then ' ' :: collapseWsAux true rest else c :: collapseWsAux false rest

/-- Helper for JS `String.trim`: drop trailing whitespace. -/
def trimRightWs : List Char → List Char
  | [] => []
  | c :: rest =>
    match trimRightWs rest with
    | [] => if isJsWs c then [] else [c]
    | r => c :: r

/-- JS `String.trim`: drop whitespace at both ends. -/
def trimWs (l : List Char) : List Char := trimRightWs (l.dropWhile isJsWs)

/-- content.ts `removeLinks` (lines 72-90): the regex replacement passes in
    source order — markdown links keeping the label, `http(s)://` URLs,
    `www.` URLs, `r/...` subreddit references, `u/...` user mentions — then
    whitespace collapsing and trimming. -/
def removeLinks (text : List Char) : List Char :=
  trimWs (collapseWsAux false
    (removeTagMentions 'u'
      (removeTagMentions 'r'
        (scanReplace (fun l => (matchWww l).map (fun a => ([], a)))
          (scanReplace (fun l => (matchHttpUrl l).map (fun a => ([], a)))
            (scanReplace matchMd text))))))

/-- True when the list has no two adjacent whitespace characters. -/
def noDoubleWs : List Char → Bool
  | [] => true
  | [_] => true
  | a :: b :: rest => !(isJsWs a && isJsWs b) && noDoubleWs (b :: rest)

/-- The specification's concrete `stripLinks` input. -/
def sampleLinkInput : List Char :=
  "Check [this](http://x.com/y) out at https://example.com and r/funny, u/bob".data

/-- Kind of a queue item (content.ts `allContent` entries). -/
inductive ItemKind
  | title
  | body
  | comment
deriving DecidableEq

/-- An entry of content.ts `allContent` (line 25). -/
structure ContentItem where
  kind : ItemKind
  text : List Char
  author : Option (List Char) := none
  depth : Option Int := none
  id : Option (List Char) := none
deriving DecidableEq

/-- An utterance submitted to the speech engine by the content script: the
    queue index it was created for, its rate, and a generation number
    identifying it (`SpeechSynthesisUtterance` object identity). -/
structure Utt where
  idx : Nat
  rate : Rat
  uid : Nat
deriving DecidableEq

/-- The content script's module-level playback state (content.ts lines 4-30)
    together with the speech engine's observable state: the
    `speechSynthesis.speaking` / `speechSynthesis.paused` flags and the
    utterance currently in flight (none once cancelled or finished). -/
structure PState where
  allContent : List ContentItem
  currentIndex : Nat
  playbackSpeed : Rat
  isPlaying : Bool
  isPaused : Bool
  speaking : Bool
  paused : Bool
  inFlight : Option Utt
  nextUid : Nat
deriving DecidableEq

/-- `synthesis.cancel()`: the engine drops the in-flight utterance; the JS
    module variables are untouched. -/
def cancelSynth (s : PState) : PState :=
  { s with speaking := false, paused := false, inFlight := none }

/-- content.ts `readContent` (lines 532-576): a no-op when the index is outside
    `[0, allContent.length)`; otherwise submits a new utterance for the item at
    `index` with the current playback speed and marks the script playing
    (highlight/scroll side effects are not modelled). -/
def readContent (s : PState) (index : Int) : PState :=
  if index ≥ (s.allContent.length : Int) ∨ index < 0 then s
  else
    { s with
      inFlight := some ⟨index.toNat, s.playbackSpeed, s.nextUid⟩,
      nextUid := s.nextUid + 1,
      speaking := true,
      isPlaying := true,
      isPaused := false }

/-- The `onend` closure installed by `readContent` (content.ts lines 558-567),
    run when a completion callback fires.  The engine has released the
    utterance; the closure then advances and re-speaks without checking which
    utterance ended (the `setTimeout` delay is modelled as immediate). -/
def onUtteranceEnd (s : PState) : PState :=
  let s1 := { s with speaking := false, inFlight := none }
  if (s1.currentIndex : Int) < (s1.allContent.length : Int) - 1 then
    let s2 := { s1 with currentIndex := s1.currentIndex + 1 }
    readContent s2 s2.currentIndex
  else
    { s1 with isPlaying := false }

/-- The message surface of the content script (content.ts `onMessage`,
    lines 578-784) plus the speech engine's asynchronous callbacks.
    `endCallback uid` is the completion callback of the utterance with
    generation `uid`; the handler in the source ignores that identity.
    `loadContent` is the tail of the `extractComments` handler
    (lines 608-629): it replaces `allContent` and resets the cursor. -/
inductive Msg
  | play
  | pause
  | stop
  | next
  | previous
  | setSpeed (speed : Rat)
  | endCallback (uid : Nat)
  | errorCallback
  | loadContent (items : List ContentItem)

/-- One step of the content script's message handler / callbacks. -/
def contentStep (s : PState) : Msg → PState
  | .play =>
    if s.paused then { s with paused := false, isPaused := false, isPlaying := true }
    else if !s.speaking then readContent s s.currentIndex
    else s
  | .pause =>
    if s.speaking then { s with paused := true, isPaused := true, isPlaying := false }
    else s
  | .stop =>
    let s1 := cancelSynth s
    { s1 with currentIndex := 0, isPlaying := false, isPaused := false }
  | .next =>
    let s1 := cancelSynth s
    if (s1.currentIndex : Int) < (s1.allContent.length : Int) - 1 then
      let s2 := { s1 with currentIndex := s1.currentIndex + 1 }
      readContent s2 s2.currentIndex
    else s1
  | .previous =>
    let s1 := cancelSynth s
    let s2 :=
      if s1.currentIndex > 0 then { s1 with currentIndex := s1.currentIndex - 1 }
      else s1
    readContent s2 s2.currentIndex
  | .setSpeed r => { s with playbackSpeed := r }
  | .endCallback _ => onUtteranceEnd s
  | .errorCallback => { s with speaking := false, inFlight := none, isPlaying := false }
  | .loadContent items => { s with allContent := items, currentIndex := 0 }

/-- The five transport commands plus the completion callback, the events
    claim C10 quantifies over. -/
def isTransportOrEnd : Msg → Bool
  | .play => true
  | .pause => true
  | .stop => true
  | .next => true
  | .previous => true
  | .endCallback _ => true
  | _ => false

/-- The cursor-bounds invariant: `0 ≤ cursor ≤ max(0, totalItems - 1)` (the
    lower bound is inherent in the `Nat` cursor, which is faithful because no
    handler ever decrements below the `currentIndex > 0` guard). -/
def cursorInv (s : PState) : Prop :=
  s.currentIndex ≤ s.allContent.length - 1

/-- A comment as loaded into the standalone playback engine
    (playback.ts line 18). -/
structure EngComment where
  text : List Char
  author : Option (List Char)
deriving DecidableEq, Inhabited

/-- The engine's `this.utterance` object: text plus mutable rate. -/
structure EngUtt where
  text : List Char
  rate : Rat
deriving DecidableEq

/-- State of `PlaybackEngine` (playback.ts lines 15-27) together with the
    speech engine's observable flags.  `utterance` models the JS field, which
    survives `synthesis.cancel()` and is cleared only by `stop()`. -/
structure EngState where
  comments : List EngComment
  currentIndex : Nat
  playbackSpeed : Rat
  utterance : Option EngUtt
  speaking : Bool
  paused : Bool
deriving DecidableEq

/-- `synthesis.cancel()` as observed by the engine class. -/
def engCancel (t : EngState) : EngState := { t with speaking := false, paused := false }

/-- `PlaybackEngine.readComment` (playback.ts lines 165-209): a no-op with a
    warning for an out-of-range index; otherwise builds an utterance for the
    comment's text at the current playback speed and speaks it. -/
def engReadComment (t : EngState) (index : Int) : EngState :=
  if index < 0 ∨ index ≥ (t.comments.length : Int) then t
  else
    { t with
      utterance := some ⟨(t.comments.getD index.toNat default).text, t.playbackSpeed⟩,
      speaking := true }

/-- `PlaybackEngine.stop` (playback.ts lines 82-88). -/
def engStop (t : EngState) : EngState :=
  let t1 := engCancel t
  { t1 with currentIndex := 0, utterance := none }

/-- `PlaybackEngine.next` (playback.ts lines 93-104): at the last index it
    calls `stop()`, which also resets the cursor to 0. -/
def engNext (t : EngState) : EngState :=
  let t1 := engCancel t
  if (t1.currentIndex : Int) < (t1.comments.length : Int) - 1 then
    let t2 := { t1 with currentIndex := t1.currentIndex + 1 }
    engReadComment t2 t2.currentIndex
  else engStop t1

/-- `PlaybackEngine.previous` (playback.ts lines 109-121): at index 0 it
    re-reads comment 0. -/
def engPrevious (t : EngState) : EngState :=
  let t1 := engCancel t
  if t1.currentIndex > 0 then
    let t2 := { t1 with currentIndex := t1.currentIndex - 1 }
    engReadComment t2 t2.currentIndex
  else
    let t2 := { t1 with currentIndex := 0 }
    engReadComment t2 t2.currentIndex

/-- `Math.max(0.5, Math.min(2.0, speed))`. -/
def clampSpeed (r : Rat) : Rat := max (1/2 : Rat) (min 2 r)

/-- `PlaybackEngine.setSpeed` (playback.ts lines 126-134): clamps and also
    updates the rate of the in-flight utterance object. -/
def engSetSpeed (t : EngState) (speed : Rat) : EngState :=
  { t with
    playbackSpeed := clampSpeed speed,
    utterance := t.utterance.map (fun u => { u with rate := clampSpeed speed }) }

/-- A two-item queue (title then one comment), the smallest queue on which a
    stale completion callback can advance the cursor. -/
def sampleQueue : List ContentItem :=
  [{ kind := .title, text := "t".data },
   { kind := .comment, text := "c".data, author := some "a".data,
     depth := some 0, id := some "x1".data }]

/-- Idle content-script state over `sampleQueue`. -/
def c1Start : PState :=
  { allContent := sampleQueue, currentIndex := 0, playbackSpeed := 1,
    isPlaying := false, isPaused := false, speaking := false, paused := false,
    inFlight := none, nextUid := 0 }

/-- A content-script state with an utterance of rate 1 in flight. -/
def c2State : PState :=
  { allContent := sampleQueue, currentIndex := 0, playbackSpeed := 1,
    isPlaying := true, isPaused := false, speaking := true, paused := false,
    inFlight := some ⟨0, 1, 0⟩, nextUid := 1 }

/-- An engine state with one comment loaded and an utterance of rate 1 in
    flight. -/
def engSpeaking : EngState :=
  { comments := [⟨"c0".data, none⟩], currentIndex := 0, playbackSpeed := 1,
    utterance := some ⟨"c0".data, 1⟩, speaking := true, paused := false }

/-- An engine state whose cursor sits at the last of two loaded comments. -/
def engAtLast : EngState :=
  { comments := [⟨"c0".data, some "a0".data⟩, ⟨"c1".data, none⟩],
    currentIndex := 1, playbackSpeed := 1,
    utterance := some ⟨"c1".data, 1⟩, speaking := true, paused := false }

/-- Expansion strategy (content.ts line 18). -/
inductive Strategy
  | breadth
  | depth
  | balanced
deriving DecidableEq

/-- Abstract snapshot of the live document as the expansion loop observes it:
    total comment-node count, depth-0 comment-node count, and the effective
    depths of the currently visible "more replies" disclosure controls
    (effective depth = nearest ancestor comment's depth + 1, or 0 with no
    ancestor comment; the DOM ancestor walk of content.ts lines 216-227 is
    abstracted into the stored depth). -/
structure Doc where
  total : Nat
  topLevel : Nat
  buttons : List Nat
deriving DecidableEq

/-- The strategy filter applied to a control of effective depth `d`
    (content.ts lines 230-251). -/
def strategyFilter (strategy : Strategy) (targetDepth maxTopLevel topLevelCount : Nat)
    (d : Nat) : Bool :=
  match strategy with
  | .breadth =>
    if d = 0 ∧ topLevelCount ≥ maxTopLevel then false
    else decide (d ≤ min 2 targetDepth)
  | .depth =>
    if d = 0 ∧ topLevelCount ≥ min 10 maxTopLevel then false
    else decide (d < targetDepth)
  | .balanced =>
    if d = 0 ∧ topLevelCount ≥ maxTopLevel then false
    else decide (d < targetDepth)

/-- Stable insertion sort by a boolean comparison, modelling the stable
    `Array.prototype.sort` on the admitted controls (only membership in the
    sorted list matters to the claims). -/
def insertLe (le : Nat → Nat → Bool) (x : Nat) : List Nat → List Nat
  | [] => [x]
  | y :: ys => if le x y then x :: y :: ys else y :: insertLe le x ys

def sortLe (le : Nat → Nat → Bool) : List Nat → List Nat
  | [] => []
  | x :: xs => insertLe le x (sortLe le xs)

/-- content.ts lines 252-262: Breadth and Balanced order ascending by depth,
    Depth orders descending. -/
def strategySort (strategy : Strategy) (l : List Nat) : List Nat :=
  match strategy with
  | .depth => sortLe (fun a b => decide (b ≤ a)) l
  | _ => sortLe (fun a b => decide (a ≤ b)) l

/-- The batch-click loop of one iteration (content.ts lines 286-304): click the
    buttons in batches of `bs`, re-checking the live total against `maxTotal`
    before each batch; `env` is the live document's response to a batch of
    clicks after the settle wait.  Fuel equal to the list length is never
    exhausted since `bs` is 2 or 3.  Returns the final document and the depths
    of the controls actually clicked. -/
def batchLoop (env : Doc → List Nat → Doc) (maxTotal bs : Nat) :
    Nat → Doc → List Nat → Doc × List Nat
  | 0, d, _ => (d, [])
  | _ + 1, d, [] => (d, [])
  | fuel + 1, d, toClick =>
    if d.total ≥ maxTotal then (d, [])
    else
      let batch := toClick.take bs
      let d2 := env d batch
      let r := batchLoop env maxTotal bs fuel d2 (toClick.drop bs)
      (r.1, batch ++ r.2)

/-- The iterative expansion loop (content.ts lines 154-308), fuel-indexed by
    the remaining iterations (`maxIterations = 50`).  The cooperative
    `shouldStopExtraction` flag is an external signal observed at loop and
    batch boundaries; it only ever removes clicks, so it is not modelled. -/
def expandLoop (env : Doc → List Nat → Doc)
    (targetDepth maxTopLevel maxTotal : Nat) (strategy : Strategy) :
    Nat → Doc → Doc × List Nat
  | 0, d => (d, [])
  | n + 1, d =>
    if d.total ≥ maxTotal then (d, [])
    else if d.topLevel ≥ maxTopLevel ∧ strategy ≠ .depth ∧
        d.buttons.any (fun b => decide (b > 0)) = false then (d, [])
    else
      let sorted := strategySort strategy
        (d.buttons.filter (strategyFilter strategy targetDepth maxTopLevel d.topLevel))
      if sorted = [] then (d, [])
      else
        let remainingBudget := maxTotal - d.total
        if remainingBudget = 0 then (d, [])
        else
          let maxButtonsToClick := max 1 (remainingBudget / 7)
          let buttonsToClick := sorted.take (min sorted.length maxButtonsToClick)
          let bs := if strategy = .breadth then 3 else 2
          let r1 := batchLoop env maxTotal bs buttonsToClick.length d buttonsToClick
          let r2 := expandLoop env targetDepth maxTopLevel maxTotal strategy n r1.1
          (r2.1, r1.2 ++ r2.2)

/-- content.ts `expandCommentsToDepth` (lines 123-324): if the document already
    meets or exceeds `maxTotal`, return with zero reveals (lines 141-145);
    otherwise run up to 50 iterations.  Returns the final document and the
    depths of every control clicked. -/
def expand (env : Doc → List Nat → Doc)
    (targetDepth maxTopLevel maxTotal : Nat) (strategy : Strategy) (d : Doc) :
    Doc × List Nat :=
  if d.total ≥ maxTotal then (d, [])
  else expandLoop env targetDepth maxTopLevel maxTotal strategy 50 d

/-- An environment in which every clicked control reveals exactly 7 new
    comment nodes and the set of visible controls stays the same. -/
def envSeven : Doc → List Nat → Doc :=
  fun d clicks => { d with total := d.total + 7 * clicks.length }

/-- A document already holding 3 comments. -/
def doc3 : Doc := { total := 3, topLevel := 1, buttons := [0, 1] }

/-- An empty document offering a single depth-1 control. -/
def doc0 : Doc := { total := 0, topLevel := 0, buttons := [1] }

/-- A `shreddit-comment` node as the extractor reads it: `thingId` and
    `permalinkAttr` are `[]` when the attribute is missing or empty (both are
    falsy in JS); `authorAttr` is the raw `author` attribute (`none` when
    missing); `depth` abstracts `parseInt(getAttribute('depth') || '0', 10)`;
    `rawText` is the rendered text content of the comment body (`[]` when the
    content div is missing). -/
structure RawNode where
  thingId : List Char
  authorAttr : Option (List Char)
  depth : Int
  rawText : List Char
  permalinkAttr : List Char
deriving DecidableEq

/-- `getAttribute('author') || null`: the empty string is normalised to null. -/
def jsOrNull (a : Option (List Char)) : Option (List Char) :=
  match a with
  | none => none
  | some s => if s = [] then none else some s

/-- A `CommentData` record (src/types, part_002), minus the live DOM
    `element` reference. -/
structure CommentData where
  id : List Char
  text : List Char
  author : Option (List Char)
  depth : Int
  permalink : List Char
deriving DecidableEq

/-- content.ts `extractComments` (lines 379-426), with `k` the number of
    records pushed so far (`extractedComments.length`, used for the synthetic
    `comment-<n>` id).  Filtered authors are skipped before the text is read;
    nodes whose sanitized text is empty are skipped. -/
def extractGo : List RawNode → Nat → List CommentData
  | [], _ => []
  | node :: rest, k =>
    let author := jsOrNull node.authorAttr
    if shouldFilterAuthor author then extractGo rest k
    else
      let text := removeLinks (trimWs node.rawText)
      if text = [] then extractGo rest k
      else
        let id := if node.thingId ≠ [] then node.thingId
                  else "comment-".data ++ Nat.toDigits 10 k
        { id := id, text := text, author := author, depth := node.depth,
          permalink :=
            if node.permalinkAttr ≠ [] then node.permalinkAttr
            else '#' :: id } :: extractGo rest (k + 1)

def extractComments (nodes : List RawNode) : List CommentData :=
  extractGo nodes 0

/-- A well-behaved comment node. -/
def goodNode : RawNode :=
  { thingId := "t1".data, authorAttr := some "alice".data, depth := 0,
    rawText := "hi".data, permalinkAttr := "/p".data }

/-- C4: the author filter is case-insensitive (it decides on the lowercased
    name), returns true exactly when the lowercased name is in the built-in
    denylist, or contains "bot", or ends with "bot"/"_bot", or starts with
    "mod"; a null author is never filtered; and the specification's concrete
    examples "AutoModerator", "SomeBot_99", "Moderator_Jane" are filtered while
    "regular_user" is not. -/
theorem C4_author_filter :
    (∀ a : List Char, shouldFilterAuthor (some a) = specFilteredAuthor a) ∧
    shouldFilterAuthor none = false ∧
    shouldFilterAuthor (some "AutoModerator".data) = true ∧
    shouldFilterAuthor (some "SomeBot_99".data) = true ∧
    shouldFilterAuthor (some "Moderator_Jane".data) = true ∧
    shouldFilterAuthor (some "regular_user".data) = false := by
  refine ⟨?_, rfl, by decide, by decide, by decide, by decide⟩
  intro a
  by_cases h : a = []
  · subst h; decide
  · simp only [shouldFilterAuthor, specFilteredAuthor, if_neg h]
    cases h1 : FILTERED_AUTHORS.contains (a.map Char.toLower) <;>
      cases h2 : listContainsSub "bot".data (a.map Char.toLower) <;>
        cases h3 : ("bot".data.isSuffixOf (a.map Char.toLower)) <;>
          cases h4 : ("_bot".data.isSuffixOf (a.map Char.toLower)) <;>
            cases h5 : ("mod".data.isPrefixOf (a.map Char.toLower)) <;>
              simp [h1, h2, h3, h4, h5]

theorem restrictedPool_eq_spec (pool allow : List (List Char)) :
    restrictedPool pool allow = specRestrictedPool pool allow := by
  unfold restrictedPool specRestrictedPool
  by_cases ha : allow = []
  · subst ha
    have hf : pool.filter (fun v => List.contains ([] : List (List Char)) v) = [] := by
      simp
    rw [if_neg (by simp : ¬(([] : List (List Char)) ≠ [])), if_neg (not_not_intro hf)]
  · by_cases hf : pool.filter (fun v => allow.contains v) = []
    · rw [if_pos ha, if_pos hf, if_neg (not_not_intro hf)]
    · rw [if_pos ha, if_neg hf, if_pos hf]

theorem restrictedPool_ne_nil (pool allow : List (List Char)) (h : pool ≠ []) :
    restrictedPool pool allow ≠ [] := by
  unfold restrictedPool
  split
  · split
    · exact h
    · assumption
  · exact h

/-- C6: with an empty pool the allocator returns null; with rotation disabled it
    returns pool[0]; otherwise it returns P[index mod |P|] where P is the pool
    restricted to the allowlist when that restriction is non-empty and the full
    pool otherwise; it is periodic in the index with period |P|; and on a
    three-voice pool with rotation and no allowlist, indices 0, 3 map to
    pool[0] and index 4 maps to pool[1]. -/
theorem C6_voice_allocator :
    (∀ i u sel, getVoiceForIndex i [] u sel = none) ∧
    (∀ i pool sel, pool ≠ [] →
      getVoiceForIndex i pool false sel = some (pool.getD 0 [])) ∧
    (∀ i pool sel, pool ≠ [] →
      getVoiceForIndex i pool true sel =
        some ((specRestrictedPool pool sel).getD
          (i % (specRestrictedPool pool sel).length) [])) ∧
    (∀ i pool sel,
      getVoiceForIndex (i + (restrictedPool pool sel).length) pool true sel =
        getVoiceForIndex i pool true sel) ∧
    (getVoiceForIndex 0 vpool3 true [] = some "v0".data ∧
     getVoiceForIndex 3 vpool3 true [] = some "v0".data ∧
     getVoiceForIndex 4 vpool3 true [] = some "v1".data) := by
  refine ⟨?_, ?_, ?_, ?_, by decide, by decide, by decide⟩
  · intro i u sel; simp [getVoiceForIndex]
  · intro i pool sel h; simp [getVoiceForIndex, h]
  · intro i pool sel h
    simp [getVoiceForIndex, h, restrictedPool_eq_spec]
  · intro i pool sel
    by_cases h : pool = []
    · subst h; simp [getVoiceForIndex]
    · simp only [getVoiceForIndex, if_neg h]
      rw [Nat.add_mod_right]

/-- Witness for C6: the hypotheses are satisfiable at the concrete three-voice
    pool. -/
theorem C6_voice_allocator_witness :
    vpool3 ≠ [] ∧ getVoiceForIndex 2 vpool3 false [] = some (vpool3.getD 0 []) :=
  ⟨by decide, C6_voice_allocator.2.1 2 vpool3 [] (by decide)⟩

theorem collapseWsAux_true_head (l : List Char) :
    ∀ c cs, collapseWsAux true l = c :: cs → isJsWs c = false := by
  induction l with
  | nil => intro c cs h; simp [collapseWsAux] at h
  | cons a rest ih =>
    intro c cs h
    simp only [collapseWsAux] at h
    cases ha : isJsWs a with
    | true => rw [if_pos ha] at h; exact ih c cs h
    | false =>
      rw [if_neg (by simp [ha])] at h
      injection h with h1 _
      rw [← h1]; exact ha

theorem noDoubleWs_tail (a : Char) (l : List Char) (h : noDoubleWs (a :: l) = true) :
    noDoubleWs l = true := by
  cases l with
  | nil => rfl
  | cons b bs =>
    simp only [noDoubleWs, Bool.and_eq_true] at h
    exact h.2

theorem noDoubleWs_cons_of (x : Char) (l : List Char) (h : noDoubleWs l = true)
    (hx : ∀ y ys, l = y :: ys → (isJsWs x && isJsWs y) = false) :
    noDoubleWs (x :: l) = true := by
  cases l with
  | nil => rfl
  | cons y ys =>
    simp only [noDoubleWs, Bool.and_eq_true]
    exact ⟨by rw [hx y ys rfl]; rfl, h⟩

theorem noDoubleWs_collapseWsAux (l : List Char) :
    ∀ b, noDoubleWs (collapseWsAux b l) = true := by
  induction l with
  | nil => intro b; cases b <;> rfl
  | cons a rest ih =>
    intro b
    cases b with
    | true =>
      simp only [collapseWsAux]
      cases ha : isJsWs a with
      | true => rw [if_pos rfl]; exact ih true
      | false =>
        rw [if_neg (by simp [ha])]
        refine noDoubleWs_cons_of a _ (ih false) ?_
        intro y ys _; simp [ha]
    | false =>
      simp only [collapseWsAux]
      cases ha : isJsWs a with
      | true =>
        rw [if_pos rfl]
        refine noDoubleWs_cons_of ' ' _ (ih true) ?_
        intro y ys hy
        rw [collapseWsAux_true_head rest y ys hy]
        simp
      | false =>
        rw [if_neg (by simp [ha])]
        refine noDoubleWs_cons_of a _ (ih false) ?_
        intro y ys _; simp [ha]

theorem noDoubleWs_dropWhile (p : Char → Bool) (l : List Char)
    (h : noDoubleWs l = true) : noDoubleWs (l.dropWhile p) = true := by
  induction l with
  | nil => exact h
  | cons a rest ih =>
    simp only [List.dropWhile]
    cases hp : p a with
    | true => exact ih (noDoubleWs_tail a rest h)
    | false => exact h

theorem trimRightWs_head (x : Char) (xs : List Char) :
    ∀ y ys, trimRightWs (x :: xs) = y :: ys → y = x := by
  intro y ys h
  simp only [trimRightWs] at h
  cases hr : trimRightWs xs with
  | nil =>
    rw [hr] at h
    cases hx : isJsWs x with
    | true => rw [if_pos hx] at h; exact absurd h (by simp)
    | false => rw [if_neg (by simp [hx])] at h; injection h with h1 _; exact h1.symm
  | cons z zs =>
    rw [hr] at h
    injection h with h1 _
    exact h1.symm

theorem noDoubleWs_trimRightWs (l : List Char) (h : noDoubleWs l = true) :
    noDoubleWs (trimRightWs l) = true := by
  induction l with
  | nil => rfl
  | cons c rest ih =>
    simp only [trimRightWs]
    cases hr : trimRightWs rest with
    | nil =>
      cases hc : isJsWs c with
      | true => rw [if_pos rfl]; rfl
      | false => rw [if_neg (by simp)]; rfl
    | cons y ys =>
      cases rest with
      | nil => simp [trimRightWs] at hr
      | cons x xs =>
        have hy : y = x := trimRightWs_head x xs y ys hr
        subst hy
        have h2 : noDoubleWs (trimRightWs (y :: xs)) = true := by
          exact ih (noDoubleWs_tail c (y :: xs) h)
        rw [hr] at h2
        simp only [noDoubleWs, Bool.and_eq_true] at h ⊢
        exact ⟨h.1, h2⟩

theorem dropWhile_head_not (p : Char → Bool) (l : List Char) :
    ∀ c cs, l.dropWhile p = c :: cs → p c = false := by
  induction l with
  | nil => intro c cs h; simp at h
  | cons a rest ih =>
    intro c cs h
    simp only [List.dropWhile] at h
    cases hp : p a with
    | true => rw [hp] at h; exact ih c cs h
    | false => rw [hp] at h; injection h with h1 _; rw [← h1]; exact hp

theorem trimRightWs_last_not (l : List Char) :
    ∀ c, (trimRightWs l).getLast? = some c → isJsWs c = false := by
  induction l with
  | nil => intro c h; simp [trimRightWs] at h
  | cons a rest ih =>
    intro c h
    simp only [trimRightWs] at h
    cases hr : trimRightWs rest with
    | nil =>
      rw [hr] at h
      cases ha : isJsWs a with
      | true => rw [if_pos ha] at h; simp at h
      | false =>
        rw [if_neg (by simp [ha])] at h
        simp only [List.getLast?_singleton, Option.some.injEq] at h
        rw [← h]; exact ha
    | cons y ys =>
      rw [hr, List.getLast?_cons_cons] at h
      rw [← hr] at h
      exact ih c h

theorem trimWs_head_not (l : List Char) :
    ∀ c cs, trimWs l = c :: cs → isJsWs c = false := by
  intro c cs h
  unfold trimWs at h
  cases hm : l.dropWhile isJsWs with
  | nil => rw [hm] at h; simp [trimRightWs] at h
  | cons x xs =>
    rw [hm] at h
    have hc : c = x := trimRightWs_head x xs c cs h
    subst hc
    exact dropWhile_head_not isJsWs l c xs hm

/-- C5: stripLinks on the specification's example yields exactly
    "Check this out at and ," (markdown label kept, raw URL and the r/xxx and
    u/xxx tokens removed); and for every input the result has no two adjacent
    whitespace characters and neither starts nor ends with whitespace (the
    collapse-and-trim contract). -/
theorem C5_strip_links :
    removeLinks sampleLinkInput = "Check this out at and ,".data ∧
    (∀ l : List Char, noDoubleWs (removeLinks l) = true) ∧
    (∀ (l : List Char) (c : Char) (cs : List Char),
        removeLinks l = c :: cs → isJsWs c = false) ∧
    (∀ (l : List Char) (c : Char),
        (removeLinks l).getLast? = some c → isJsWs c = false) := by
  refine ⟨by decide, ?_, ?_, ?_⟩
  · intro l
    unfold removeLinks trimWs
    exact noDoubleWs_trimRightWs _
      (noDoubleWs_dropWhile isJsWs _ (noDoubleWs_collapseWsAux _ false))
  · intro l c cs h
    unfold removeLinks at h
    exact trimWs_head_not _ c cs h
  · intro l c h
    unfold removeLinks trimWs at h
    exact trimRightWs_last_not _ c h

/-- Witness for C5: the hypotheses are satisfiable on the specification's
    example input. -/
theorem C5_strip_links_witness :
    removeLinks sampleLinkInput = 'C' :: "heck this out at and ,".data ∧
    isJsWs 'C' = false :=
  ⟨by decide,
   C5_strip_links.2.2.1 sampleLinkInput 'C' "heck this out at and ,".data (by decide)⟩

theorem readContent_currentIndex (s : PState) (i : Int) :
    (readContent s i).currentIndex = s.currentIndex := by
  unfold readContent; split <;> rfl

theorem readContent_allContent (s : PState) (i : Int) :
    (readContent s i).allContent = s.allContent := by
  unfold readContent; split <;> rfl

/-- C1: evaluating the content script at the failing input.  `play` speaks
    item 0 (utterance generation 0); `stop` cancels it and resets the cursor
    to 0; the late completion callback of the cancelled generation-0 utterance
    then advances the cursor to 1 and begins speaking item 1 — the spurious
    auto-advance the specification forbids (the `onend` closure never compares
    utterance identity). -/
theorem C1_stale_callback_spurious_advance :
    ((contentStep c1Start .play).inFlight = some ⟨0, 1, 0⟩ ∧
     (contentStep c1Start .play).speaking = true) ∧
    ((contentStep (contentStep c1Start .play) .stop).currentIndex = 0 ∧
     (contentStep (contentStep c1Start .play) .stop).speaking = false ∧
     (contentStep (contentStep c1Start .play) .stop).inFlight = none) ∧
    ((contentStep (contentStep (contentStep c1Start .play) .stop)
        (.endCallback 0)).currentIndex = 1 ∧
     (contentStep (contentStep (contentStep c1Start .play) .stop)
        (.endCallback 0)).speaking = true ∧
     (contentStep (contentStep (contentStep c1Start .play) .stop)
        (.endCallback 0)).inFlight = some ⟨1, 1, 1⟩) := by
  decide

/-- Counterexample to C2: the content script's `setSpeed` handler stores the
    requested rate 5 without clamping it to [0.5, 2.0], and leaves the rate of
    the in-flight utterance at 1. -/
theorem C2_setSpeed_counterexample :
    (contentStep c2State (.setSpeed 5)).playbackSpeed = 5 ∧
    ¬((contentStep c2State (.setSpeed 5)).playbackSpeed ≤ 2) ∧
    (contentStep c2State (.setSpeed 5)).inFlight = some ⟨0, 1, 0⟩ := by
  decide

/-- C2 (amended): `PlaybackEngine.setSpeed` stores the rate clamped to
    [0.5, 2.0] and writes the clamped rate into the in-flight utterance
    object, and every utterance started afterwards uses the stored speed;
    the content script's `setSpeed` handler, by contrast, stores the
    requested rate unclamped and applies it only to utterances started
    afterwards. -/
theorem C2_setSpeed_amended :
    (∀ (t : EngState) (r : Rat),
      1/2 ≤ (engSetSpeed t r).playbackSpeed ∧ (engSetSpeed t r).playbackSpeed ≤ 2) ∧
    (∀ (t : EngState) (r : Rat), (engSetSpeed t r).playbackSpeed = clampSpeed r) ∧
    (∀ (t : EngState) (r : Rat) (u : EngUtt), t.utterance = some u →
      (engSetSpeed t r).utterance = some { u with rate := clampSpeed r }) ∧
    (∀ (t : EngState) (i : Int), ¬(i < 0 ∨ i ≥ (t.comments.length : Int)) →
      (engReadComment t i).utterance =
        some ⟨(t.comments.getD i.toNat default).text, t.playbackSpeed⟩) ∧
    (∀ (s : PState) (r : Rat), (contentStep s (.setSpeed r)).playbackSpeed = r) ∧
    (∀ (s : PState) (i : Int), ¬(i ≥ (s.allContent.length : Int) ∨ i < 0) →
      (readContent s i).inFlight = some ⟨i.toNat, s.playbackSpeed, s.nextUid⟩) := by
  refine ⟨?_, fun t r => rfl, ?_, ?_, fun s r => rfl, ?_⟩
  · intro t r
    constructor
    · exact le_max_left _ _
    · exact max_le (by norm_num) (min_le_left _ _)
  · intro t r u h
    simp [engSetSpeed, h]
  · intro t i h
    unfold engReadComment
    rw [if_neg h]
  · intro s i h
    unfold readContent
    rw [if_neg h]

/-- Witness for C2 (amended): the hypotheses are satisfiable — an engine state
    with an in-flight utterance of rate 1, sped up to a clamped 2. -/
theorem C2_setSpeed_amended_witness :
    (engSetSpeed engSpeaking 5).utterance = some ⟨"c0".data, clampSpeed 5⟩ :=
  C2_setSpeed_amended.2.2.1 engSpeaking 5 ⟨"c0".data, 1⟩ rfl

/-- Counterexample to C3: `PlaybackEngine.next()` invoked with the cursor at
    the last index (1 of 2) does stop playback, but via `stop()`, which resets
    the cursor to 0 instead of leaving it at the last index. -/
theorem C3_next_at_last_counterexample :
    engAtLast.comments.length = 2 ∧ engAtLast.currentIndex = 1 ∧
    (engNext engAtLast).currentIndex = 0 ∧
    (engNext engAtLast).speaking = false := by
  decide

/-- C3 (amended): in the content script, `previous()` at cursor 0 re-speaks
    item 0 with the cursor still 0; `next()` at the last index stops playback
    with the cursor remaining at the last index; away from the boundaries both
    move the cursor by exactly one and speak the new position.
    `PlaybackEngine.previous()` at 0 likewise re-reads comment 0, but
    `PlaybackEngine.next()` at the last index calls `stop()`, which resets the
    cursor to 0 (it does stop playback). -/
theorem C3_transport_boundaries :
    (∀ s : PState, s.allContent ≠ [] → s.currentIndex = 0 →
      (contentStep s .previous).currentIndex = 0 ∧
      (contentStep s .previous).inFlight = some ⟨0, s.playbackSpeed, s.nextUid⟩ ∧
      (contentStep s .previous).speaking = true) ∧
    (∀ s : PState, s.currentIndex = s.allContent.length - 1 →
      (contentStep s .next).currentIndex = s.currentIndex ∧
      (contentStep s .next).speaking = false ∧
      (contentStep s .next).inFlight = none) ∧
    (∀ s : PState, s.currentIndex + 1 < s.allContent.length →
      (contentStep s .next).currentIndex = s.currentIndex + 1 ∧
      (contentStep s .next).inFlight =
        some ⟨s.currentIndex + 1, s.playbackSpeed, s.nextUid⟩ ∧
      (contentStep s .next).speaking = true) ∧
    (∀ s : PState, 0 < s.currentIndex → s.currentIndex < s.allContent.length →
      (contentStep s .previous).currentIndex = s.currentIndex - 1 ∧
      (contentStep s .previous).inFlight =
        some ⟨s.currentIndex - 1, s.playbackSpeed, s.nextUid⟩ ∧
      (contentStep s .previous).speaking = true) ∧
    (∀ t : EngState, t.comments ≠ [] → t.currentIndex = 0 →
      (engPrevious t).currentIndex = 0 ∧
      (engPrevious t).utterance =
        some ⟨(t.comments.getD 0 default).text, t.playbackSpeed⟩ ∧
      (engPrevious t).speaking = true) ∧
    (∀ t : EngState, t.currentIndex = t.comments.length - 1 →
      (engNext t).currentIndex = 0 ∧ (engNext t).utterance = none ∧
      (engNext t).speaking = false) := by
  refine ⟨?_, ?_, ?_, ?_, ?_, ?_⟩
  · intro s hne h0
    simp [contentStep, cancelSynth, readContent, h0, hne]
  · intro s hlast
    simp only [contentStep, cancelSynth]
    rw [if_neg (by push_cast [hlast]; omega)]
    exact ⟨rfl, rfl, rfl⟩
  · intro s hmid
    simp only [contentStep, cancelSynth, readContent]
    split
    · split
      · exfalso
        rename_i hc
        first
        | (dsimp only at hc
           omega)
        | omega
      · exact ⟨rfl, rfl, rfl⟩
    · exfalso; omega
  · intro s h0 hub
    simp only [contentStep, cancelSynth, readContent]
    split
    · split
      · exfalso
        rename_i hc
        first
        | (dsimp only at hc
           omega)
        | omega
      · exact ⟨rfl, rfl, rfl⟩
    · exfalso; omega
  · intro t hne h0
    have hlen : 0 < t.comments.length := List.length_pos.mpr hne
    simp only [engPrevious, engCancel, engReadComment, h0]
    split
    · exfalso; omega
    · split
      · exfalso
        rename_i hc
        first
        | (dsimp only at hc
           omega)
        | omega
      · exact ⟨rfl, rfl, rfl⟩
  · intro t hlast
    simp only [engNext, engCancel, engStop]
    split
    · exfalso
      rename_i hc
      first
      | (dsimp only at hc
         omega)
      | omega
    · exact ⟨rfl, rfl, rfl⟩

/-- Witness for C3 (amended): the hypotheses are satisfiable — `previous` in
    the idle content-script state over the two-item queue re-speaks item 0. -/
theorem C3_transport_boundaries_witness :
    c1Start.allContent ≠ [] ∧ c1Start.currentIndex = 0 ∧
    (contentStep c1Start .previous).currentIndex = 0 ∧
    (contentStep c1Start .previous).inFlight = some ⟨0, 1, 0⟩ :=
  ⟨by decide, rfl,
   (C3_transport_boundaries.1 c1Start (by decide) rfl).1,
   (C3_transport_boundaries.1 c1Start (by decide) rfl).2.1⟩

/-- C10: the cursor always stays within `[0, max(0, totalItems - 1)]` — it is 0
    right after a load/extraction, every transport command and every completion
    callback preserves the bound, `readContent` is a no-op for any out-of-range
    index and only ever speaks an index inside `[0, totalItems - 1]`, and
    `PlaybackEngine.readComment` is likewise a no-op out of range. -/
theorem C10_cursor_bounds :
    (∀ (s : PState) (items : List ContentItem),
      cursorInv (contentStep s (.loadContent items))) ∧
    (∀ (s : PState) (m : Msg), isTransportOrEnd m = true →
      cursorInv s → cursorInv (contentStep s m)) ∧
    (∀ (s : PState) (i : Int), i ≥ (s.allContent.length : Int) ∨ i < 0 →
      readContent s i = s) ∧
    (∀ (s : PState) (i : Int), ¬(i ≥ (s.allContent.length : Int) ∨ i < 0) →
      (readContent s i).inFlight = some ⟨i.toNat, s.playbackSpeed, s.nextUid⟩ ∧
      i.toNat < s.allContent.length) ∧
    (∀ (t : EngState) (i : Int), i < 0 ∨ i ≥ (t.comments.length : Int) →
      engReadComment t i = t) := by
  refine ⟨?_, ?_, ?_, ?_, ?_⟩
  · intro s items
    show (0 : Nat) ≤ _
    exact Nat.zero_le _
  · intro s m hm hinv
    unfold cursorInv at hinv ⊢
    cases m with
    | play =>
      simp only [contentStep]
      split
      · exact hinv
      · split
        · rw [readContent_currentIndex, readContent_allContent]
          exact hinv
        · exact hinv
    | pause =>
      simp only [contentStep]
      split
      · exact hinv
      · exact hinv
    | stop => exact Nat.zero_le _
    | next =>
      simp only [contentStep, cancelSynth]
      split
      · rw [readContent_currentIndex, readContent_allContent]
        rename_i hc
        have hc2 : (s.currentIndex : Int) < (s.allContent.length : Int) - 1 := hc
        show s.currentIndex + 1 ≤ s.allContent.length - 1
        omega
      · exact hinv
    | previous =>
      simp only [contentStep, cancelSynth]
      rw [readContent_currentIndex, readContent_allContent]
      split
      · dsimp only
        omega
      · exact hinv
    | endCallback uid =>
      simp only [contentStep, onUtteranceEnd]
      split
      · rw [readContent_currentIndex, readContent_allContent]
        rename_i hc
        have hc2 : (s.currentIndex : Int) < (s.allContent.length : Int) - 1 := hc
        show s.currentIndex + 1 ≤ s.allContent.length - 1
        omega
      · exact hinv
    | setSpeed r => exact absurd hm (by simp [isTransportOrEnd])
    | errorCallback => exact absurd hm (by simp [isTransportOrEnd])
    | loadContent items => exact absurd hm (by simp [isTransportOrEnd])
  · intro s i h
    unfold readContent
    rw [if_pos h]
  · intro s i h
    unfold readContent
    rw [if_neg h]
    exact ⟨rfl, by omega⟩
  · intro t i h
    unfold engReadComment
    rw [if_pos h]

/-- Witness for C10: the hypotheses are satisfiable — `stop` preserves the
    bound from the in-flight state over the two-item queue. -/
theorem C10_cursor_bounds_witness :
    isTransportOrEnd .stop = true ∧ cursorInv c2State ∧
    cursorInv (contentStep c2State .stop) :=
  ⟨rfl, by unfold cursorInv; decide,
   C10_cursor_bounds.2.1 c2State .stop rfl (by unfold cursorInv; decide)⟩

theorem mem_insertLe (le : Nat → Nat → Bool) (x a : Nat) :
    ∀ l, a ∈ insertLe le x l → a = x ∨ a ∈ l := by
  intro l
  induction l with
  | nil => intro h; simp [insertLe] at h; exact Or.inl h
  | cons y ys ih =>
    intro h
    simp only [insertLe] at h
    split at h
    · rcases List.mem_cons.mp h with h1 | h2
      · exact Or.inl h1
      · exact Or.inr h2
    · rcases List.mem_cons.mp h with h1 | h2
      · exact Or.inr (by simp [h1])
      · rcases ih h2 with h3 | h4
        · exact Or.inl h3
        · exact Or.inr (List.mem_cons_of_mem _ h4)

theorem mem_sortLe (le : Nat → Nat → Bool) (a : Nat) :
    ∀ l, a ∈ sortLe le l → a ∈ l := by
  intro l
  induction l with
  | nil => intro h; simp [sortLe] at h
  | cons x xs ih =>
    intro h
    rcases mem_insertLe le x a _ h with h1 | h2
    · simp [h1]
    · exact List.mem_cons_of_mem _ (ih h2)

theorem mem_strategySort (st : Strategy) (a : Nat) (l : List Nat)
    (h : a ∈ strategySort st l) : a ∈ l := by
  cases st <;> exact mem_sortLe _ a l h

theorem batchLoop_clicks (env : Doc → List Nat → Doc) (mt bs : Nat) :
    ∀ (fuel : Nat) (d : Doc) (l : List Nat) (c : Nat),
      c ∈ (batchLoop env mt bs fuel d l).2 → c ∈ l := by
  intro fuel
  induction fuel with
  | zero => intro d l c h; simp [batchLoop] at h
  | succ n ih =>
    intro d l c h
    cases l with
    | nil => simp [batchLoop] at h
    | cons x xs =>
      simp only [batchLoop] at h
      split at h
      · simp at h
      · simp only [List.mem_append] at h
        rcases h with h1 | h2
        · exact List.take_subset _ _ h1
        · exact List.drop_subset _ _ (ih _ _ c h2)

theorem expandLoop_clicks (env : Doc → List Nat → Doc) (td mtl mt : Nat)
    (st : Strategy) :
    ∀ (n : Nat) (d : Doc) (c : Nat), c ∈ (expandLoop env td mtl mt st n d).2 →
      ∃ tlc, strategyFilter st td mtl tlc c = true := by
  intro n
  induction n with
  | zero => intro d c h; simp [expandLoop] at h
  | succ n ih =>
    intro d c h
    simp only [expandLoop] at h
    split at h
    · simp at h
    · split at h
      · simp at h
      · split at h
        · simp at h
        · split at h
          · simp at h
          · simp only [List.mem_append] at h
            rcases h with h1 | h2
            · have h3 := batchLoop_clicks env mt _ _ _ _ c h1
              have h4 := List.take_subset _ _ h3
              have h5 := mem_strategySort st c _ h4
              exact ⟨d.topLevel, List.of_mem_filter h5⟩
            · exact ih _ c h2

/-- C7: whenever the document's total comment count already meets or exceeds
    `maxTotal` — in particular for every budget with `maxTotal = 0` — `expand`
    invokes no disclosure control and returns the document unchanged. -/
theorem C7_no_reveal_when_at_budget :
    (∀ env targetDepth maxTopLevel maxTotal strategy (d : Doc),
      d.total ≥ maxTotal →
      expand env targetDepth maxTopLevel maxTotal strategy d = (d, [])) ∧
    (∀ env targetDepth maxTopLevel strategy (d : Doc),
      expand env targetDepth maxTopLevel 0 strategy d = (d, [])) := by
  constructor
  · intro env td mtl mt st d h
    unfold expand
    rw [if_pos h]
  · intro env td mtl st d
    unfold expand
    rw [if_pos (Nat.zero_le _)]

/-- Witness for C7: a document of 3 comments against a budget of 2. -/
theorem C7_no_reveal_when_at_budget_witness :
    doc3.total ≥ 2 ∧ expand envSeven 3 50 2 .balanced doc3 = (doc3, []) :=
  ⟨by decide, C7_no_reveal_when_at_budget.1 envSeven 3 50 2 .balanced doc3 (by decide)⟩

/-- C8: in every iteration of every expansion run, a control clicked under
    strategy Depth has effective depth strictly below `maxDepth`, a control
    clicked under Breadth has effective depth at most `min(2, maxDepth)`, and
    the Breadth filter rejects every depth-0 control once the top-level count
    has reached `maxTopLevel`. -/
theorem C8_strategy_admission_bounds :
    (∀ env targetDepth maxTopLevel maxTotal (d : Doc) (c : Nat),
      c ∈ (expand env targetDepth maxTopLevel maxTotal .depth d).2 →
      c < targetDepth) ∧
    (∀ env targetDepth maxTopLevel maxTotal (d : Doc) (c : Nat),
      c ∈ (expand env targetDepth maxTopLevel maxTotal .breadth d).2 →
      c ≤ min 2 targetDepth) ∧
    (∀ targetDepth maxTopLevel topLevelCount, maxTopLevel ≤ topLevelCount →
      strategyFilter .breadth targetDepth maxTopLevel topLevelCount 0 = false) := by
  refine ⟨?_, ?_, ?_⟩
  · intro env td mtl mt d c h
    unfold expand at h
    split at h
    · simp at h
    · obtain ⟨tlc, hf⟩ := expandLoop_clicks env td mtl mt .depth 50 d c h
      simp only [strategyFilter] at hf
      split at hf
      · exact absurd hf (by simp)
      · simpa using hf
  · intro env td mtl mt d c h
    unfold expand at h
    split at h
    · simp at h
    · obtain ⟨tlc, hf⟩ := expandLoop_clicks env td mtl mt .breadth 50 d c h
      simp only [strategyFilter] at hf
      split at hf
      · exact absurd hf (by simp)
      · simpa using hf
  · intro td mtl tlc h
    simp [strategyFilter, h]

/-- Witness for C8: the depth-1 control of the empty document is clicked under
    strategy Depth with maxDepth 3, and its depth is below 3. -/
theorem C8_strategy_admission_bounds_witness :
    (1 : Nat) ∈ (expand envSeven 3 5 5 .depth doc0).2 ∧ 1 < 3 :=
  ⟨by decide, C8_strategy_admission_bounds.1 envSeven 3 5 5 doc0 1 (by decide)⟩

/-- C9: every record produced by an extraction pass has non-empty sanitized
    text and an author the author filter does not reject, and its text and
    author are the sanitization/normalisation of some input node's raw text
    and author attribute (filtered or empty-text nodes are never recorded). -/
theorem C9_extracted_records_clean :
    ∀ (nodes : List RawNode) (k : Nat) (rec : CommentData),
      rec ∈ extractGo nodes k →
      rec.text ≠ [] ∧ shouldFilterAuthor rec.author = false ∧
      ∃ node ∈ nodes, rec.text = removeLinks (trimWs node.rawText) ∧
        rec.author = jsOrNull node.authorAttr := by
  intro nodes
  induction nodes with
  | nil => intro k rec h; simp [extractGo] at h
  | cons node rest ih =>
    intro k rec h
    simp only [extractGo] at h
    split at h
    · obtain ⟨h1, h2, n, hn, hprop⟩ := ih k rec h
      exact ⟨h1, h2, n, List.mem_cons_of_mem _ hn, hprop⟩
    · split at h
      · obtain ⟨h1, h2, n, hn, hprop⟩ := ih k rec h
        exact ⟨h1, h2, n, List.mem_cons_of_mem _ hn, hprop⟩
      · rename_i hfil htext
        rcases List.mem_cons.mp h with h1 | h2
        · subst h1
          refine ⟨htext, ?_, node, List.mem_cons_self _ _, rfl, rfl⟩
          exact Bool.not_eq_true _ ▸ Bool.of_not_eq_true hfil
        · obtain ⟨h1, h2, n, hn, hprop⟩ := ih (k + 1) rec h2
          exact ⟨h1, h2, n, List.mem_cons_of_mem _ hn, hprop⟩

/-- Witness for C9: the record extracted from `goodNode` is clean. -/
theorem C9_extracted_records_clean_witness :
    ({ id := "t1".data, text := "hi".data, author := some "alice".data,
       depth := 0, permalink := "/p".data } : CommentData) ∈
      extractGo [goodNode] 0 ∧
    ({ id := "t1".data, text := "hi".data, author := some "alice".data,
       depth := 0, permalink := "/p".data } : CommentData).text ≠ [] :=
  ⟨by decide,
   (C9_extracted_records_clean [goodNode] 0 _ (by decide)).1⟩
